import Mathlib

/-!
# Verification of the go-vnc client core

Shallow embedding of the repository's three source files:

* `security.go` — RFC 6143 §7.2 security types: `ClientAuthNone` and the
  error-checked `ClientAuthVNC.Handshake` / `ClientAuthVNC.encode` pair.
* `client_auth_vnc.go` — the legacy `ClientAuthVNC.Handshake` implementation
  and the `reverse` bit-reversal helper.
* `server.go` — RFC 6143 §7.6 server-to-client message decoding:
  `FramebufferUpdate.Read`, `SetColorMapEntries.Read`, `Bell.Read`,
  `ServerCutText.Read`.

Bytes are modelled as `Nat` values below 256, byte streams as `List Nat`.
Go's `crypto/des` is standard-library code, not part of this repository,
so the DES block function is left as an explicit parameter `E` of the
definitions that use it: every theorem below holds for an arbitrary block
function, which is strictly stronger than holding for DES's concrete
tables. `des.NewCipher`'s error contract (it fails exactly when the key
is not 8 bytes long, returning `KeySizeError(len(key))`) is embedded
concretely, since the claims are about that error path.
-/

/-- Errors returned by the embedded Go functions. `vncError` is produced by
the repository's `NewVNCError` helper (not under `src/`, modelled from the
spec as an error value carrying a message); `keySize` is Go's
`des.KeySizeError(n)`; `ioError` stands for any `io` read failure
(`binary.Read` / `io.ReadFull` on a short stream). -/
inductive GoError : Type
  | vncError (msg : String)
  | keySize (n : Nat)
  | ioError
  | unsupportedEncoding (t : Int)
deriving DecidableEq, Repr

/-- A network connection (`net.Conn`): the bytes still readable and the
bytes written so far. -/
structure Conn : Type where
  input : List Nat
  output : List Nat
deriving DecidableEq, Repr

/-- Reads `n` bytes from a byte stream, returning the bytes read and the
remaining stream; `none` models an `io` error on a short read. This is the
semantics shared by `binary.Read` into a fixed-size buffer and by
`io.ReadFull`. -/
def readBytes (n : Nat) (r : List Nat) : Option (List Nat × List Nat) :=
  if n ≤ r.length then some (r.take n, r.drop n) else none

/-- `binary.Read(conn, binary.BigEndian, &challenge)` with a 16-byte buffer:
consume 16 bytes from the connection or fail. On failure the available
bytes are consumed (`io.ReadFull` reads what is there before reporting
unexpected EOF). -/
def readChallenge (s : Conn) : Except GoError (List Nat) × Conn :=
  match readBytes 16 s.input with
  | some (c, rest) => (Except.ok c, { s with input := rest })
  | none => (Except.error GoError.ioError, { s with input := [] })

/-- `binary.Write(conn, binary.BigEndian, challenge)`: append the bytes to
the connection's output. -/
def writeConn (s : Conn) (bs : List Nat) : Conn :=
  { s with output := s.output ++ bs }

/-- The two lines shared by both handshake implementations:
`key := make([]byte, 8); copy(key, auth.Password)` — an 8-byte buffer
holding up to 8 password bytes, zero-filled past the password. -/
def makeKey (password : List Nat) : List Nat :=
  password.take 8 ++ List.replicate (8 - password.length) 0

/-- `reverse` from `client_auth_vnc.go`: swap adjacent bits, then adjacent
bit pairs, then the two nibbles of a byte. -/
def reverse (x : Nat) : Nat :=
  let x1 := (x &&& 0x55) <<< 1 ||| (x &&& 0xAA) >>> 1
  let x2 := (x1 &&& 0x33) <<< 2 ||| (x1 &&& 0xCC) >>> 2
  (x2 &&& 0x0F) <<< 4 ||| (x2 &&& 0xF0) >>> 4

/-- The loop body of `ClientAuthVNC.encode` in `security.go`: the same three
swap lines, written inline there (`// Swap adjacent bits`,
`// Swap adjacent pairs`, `// Swap the 2 halves`). -/
def encodeSwapByte (x : Nat) : Nat :=
  let x1 := (x &&& 0x55) <<< 1 ||| (x &&& 0xAA) >>> 1
  let x2 := (x1 &&& 0x33) <<< 2 ||| (x1 &&& 0xCC) >>> 2
  (x2 &&& 0x0F) <<< 4 ||| (x2 &&& 0xF0) >>> 4

/-- `des.NewCipher(key)`: succeeds exactly on 8-byte keys, otherwise
returns `KeySizeError(len(key))`. The cipher object itself is represented
by the key (the block function is a parameter elsewhere). -/
def desNewCipher (key : List Nat) : Except GoError (List Nat) :=
  if key.length = 8 then Except.ok key else Except.error (GoError.keySize key.length)

/-- The challenge-encryption loop, common to both files. In `security.go`:
`for i := 0; i < 16; i += cipher.BlockSize()` with DES block size 8, so the
iterations are exactly `c[0:8]` and `c[8:16]`. In `client_auth_vnc.go` the
two blocks are written out explicitly as `challengeLow`/`challengeHigh`.
`E key` is the cipher's `Encrypt` on one 8-byte block. -/
def encryptTwoBlocks (E : List Nat → List Nat → List Nat)
    (key c : List Nat) : List Nat :=
  E key (c.take 8) ++ E key ((c.drop 8).take 8) ++ c.drop 16

/-- The `key` value of `ClientAuthVNC.encode` (`security.go`) after its
bit-reversal loop: 8 bytes of zero-padded password, each byte passed
through the three swap lines. -/
def derivedKey (password : List Nat) : List Nat :=
  (makeKey password).map encodeSwapByte

/-- `ClientAuthVNC.encode` from `security.go`: derive the bit-reversed
8-byte key, initialize the cipher (propagating its error, with the buffer
untouched on that path, as the Go code returns before encrypting), then
encrypt the 16-byte buffer in place. Returns the Go error result together
with the final buffer contents. -/
def encode (E : List Nat → List Nat → List Nat) (password c : List Nat) :
    Except GoError Unit × List Nat :=
  match desNewCipher (derivedKey password) with
  | Except.error e => (Except.error e, c)
  | Except.ok k => (Except.ok (), encryptTwoBlocks E k c)

/-- The continuation of `ClientAuthVNC.Handshake` (`security.go`) after the
`auth.encode(&challenge)` call: the Go statement discards the error value
returned by `encode` and proceeds to write the (possibly untouched) buffer
back to the connection, returning nil. -/
def handshakeAfterEncode (res : Except GoError Unit × List Nat) (s : Conn) :
    Except GoError Unit × Conn :=
  (Except.ok (), writeConn s res.2)

/-- `ClientAuthVNC.Handshake` from `security.go`: reject an empty password
before any I/O, read the 16-byte challenge, encrypt it via `encode`
(whose returned error the source discards), and write the buffer back. -/
def Handshake (E : List Nat → List Nat → List Nat) (password : List Nat)
    (s : Conn) : Except GoError Unit × Conn :=
  if password = [] then
    (Except.error (GoError.vncError
      "securityHandshake: handshake failed; no password provided for VNCAuth."), s)
  else
    match readChallenge s with
    | (Except.error e, s1) => (Except.error e, s1)
    | (Except.ok challenge, s1) => handshakeAfterEncode (encode E password challenge) s1

/-- `ClientAuthVNC.Handshake` from `client_auth_vnc.go` (the legacy
implementation): no password check; read the challenge, derive the key via
`reverse`, initialize the cipher (this implementation does check the
error), encrypt low then high 8-byte halves, write back. -/
def HandshakeLegacy (E : List Nat → List Nat → List Nat) (password : List Nat)
    (s : Conn) : Except GoError Unit × Conn :=
  match readChallenge s with
  | (Except.error e, s1) => (Except.error e, s1)
  | (Except.ok challenge, s1) =>
    let key := (makeKey password).map reverse
    match desNewCipher key with
    | Except.error e => (Except.error e, s1)
    | Except.ok k => (Except.ok (), writeConn s1 (encryptTwoBlocks E k challenge))

/-- A color map entry (`Color` in `server.go`): three unsigned 16-bit
components. -/
structure Color : Type where
  r : Nat
  g : Nat
  b : Nat
deriving DecidableEq, Repr

/-- Modelled from the spec: a decoder capability together with the signed
32-bit encoding id its `Type()` method reports (the `Encoding` interface
and the concrete decoders live in a repository file that is not under
`src/`). `rawEncoding cs` is the built-in Raw decoder `NewRawEncoding(cs)`;
`callerEncoding t tag` stands for an arbitrary caller-supplied decoder
whose `Type()` returns `t`, with `tag` distinguishing distinct decoders
that share an id. -/
inductive Encoding : Type
  | rawEncoding (colors : List Color)
  | callerEncoding (typ : Int) (tag : Nat)
deriving DecidableEq, Repr

/-- Modelled from the spec: the reserved Raw encoding id — "the mandatory,
uncompressed pixel-encoding fallback every RFB client must support"
(value 0 per RFC 6143 §7.7.1). -/
def Raw : Int := 0

/-- Modelled from the spec: constructor of the stateless built-in Raw
decoder (`NewRawEncoding` in the missing encodings file; `server.go` calls
it with an empty color list). -/
def NewRawEncoding (colors : List Color) : Encoding :=
  Encoding.rawEncoding colors

/-- The encoding id reported by a decoder capability: `Raw` for the Raw
decoder, the caller-chosen id otherwise. -/
def Encoding.type : Encoding → Int
  | Encoding.rawEncoding _ => Raw
  | Encoding.callerEncoding t _ => t

/-- Modelled from the spec: the connection-state surface the decoder
consults (`ClientConn` is declared in a file not under `src/`): the
caller-configured encoding list returned by `c.Encodings()` and the
connection color map, a mapping from an unsigned 16-bit color index to a
`Color`. -/
structure ClientConn : Type where
  encodings : List Encoding
  colorMap : Nat → Color

/-- Insertion into a Go `map[int32]Encoding`: later insertions overwrite
earlier ones. -/
def mapInsert (m : Int → Option Encoding) (k : Int) (v : Encoding) :
    Int → Option Encoding :=
  fun t => if t = k then some v else m t

/-- The registry build at the start of `FramebufferUpdate.Read`
(`server.go`): `encMap := make(map[int32]Encoding)`, one insertion per
caller-configured encoding in order, then
`encMap[Raw] = NewRawEncoding([]Color{})` unconditionally. -/
def buildEncMap (encs : List Encoding) : Int → Option Encoding :=
  mapInsert (encs.foldl (fun m e => mapInsert m e.type e) (fun _ => none))
    Raw (NewRawEncoding [])

/-- Read one byte off the stream (`io.ReadFull` into a 1-byte pad buffer,
or `c.receive(&pad)`). -/
def readU8 (r : List Nat) : Option (Nat × List Nat) :=
  match r with
  | [] => none
  | b :: rest => some (b, rest)

/-- Read a big-endian unsigned 16-bit integer (`binary.Read` into a
`uint16`). -/
def readU16 (r : List Nat) : Option (Nat × List Nat) :=
  match r with
  | b1 :: b0 :: rest => some (b1 * 256 + b0, rest)
  | _ => none

/-- Read a big-endian unsigned 32-bit integer (`binary.Read` into a
`uint32`). -/
def readU32 (r : List Nat) : Option (Nat × List Nat) :=
  match r with
  | b3 :: b2 :: b1 :: b0 :: rest =>
    some (b3 * 16777216 + b2 * 65536 + b1 * 256 + b0, rest)
  | _ => none

/-- Reinterpret a 32-bit wire value as Go's signed `int32`. -/
def toInt32 (n : Nat) : Int :=
  if n < 2147483648 then (n : Int) else (n : Int) - 4294967296

/-- Modelled from the spec: `receive(buffer) -> fills buffer or fails` —
`c.receive` decodes fixed-size big-endian fields off the stream; for a
`RectangleMessage` that is four `uint16` fields (x, y, width, height)
followed by one signed 32-bit encoding id. -/
def receiveRectangleMessage (r : List Nat) :
    Option ((Nat × Nat × Nat × Nat × Int) × List Nat) :=
  match readU16 r with
  | none => none
  | some (x, r1) =>
  match readU16 r1 with
  | none => none
  | some (y, r2) =>
  match readU16 r2 with
  | none => none
  | some (w, r3) =>
  match readU16 r3 with
  | none => none
  | some (h, r4) =>
  match readU32 r4 with
  | none => none
  | some (enc, r5) => some ((x, y, w, h, toInt32 enc), r5)

/-- `Rectangle` from `server.go`: position, size, and the decoder
capability resolved at parse time. -/
structure Rectangle : Type where
  x : Nat
  y : Nat
  width : Nat
  height : Nat
  enc : Encoding
deriving DecidableEq, Repr

/-- `FramebufferUpdate` from `server.go` (the message-type byte, the
rectangle count and the rectangles; the 1-byte pad field is not carried). -/
structure FramebufferUpdate : Type where
  msg : Nat
  numRect : Nat
  rects : List Rectangle
deriving DecidableEq, Repr

/-- The wire tag of FramebufferUpdate messages. -/
def FramebufferUpdateMsg : Nat := 0

/-- `NewFramebufferUpdate` from `server.go`: `uint16(len(rects))` wraps
modulo 2^16. -/
def NewFramebufferUpdate (rects : List Rectangle) : FramebufferUpdate :=
  { msg := FramebufferUpdateMsg, numRect := rects.length % 65536, rects := rects }

/-- The rectangle loop of `FramebufferUpdate.Read`: for each of the `n`
rectangles, receive a `RectangleMessage`, resolve its encoding id in the
registry — absent ids abort the whole decode with the unsupported-encoding
error carrying the offending id — and otherwise accumulate the resolved
`Rectangle` in order. -/
def readRects (encMap : Int → Option Encoding) :
    Nat → List Nat → Except GoError (List Rectangle × List Nat)
  | 0, r => Except.ok ([], r)
  | n + 1, r =>
    match receiveRectangleMessage r with
    | none => Except.error GoError.ioError
    | some ((x, y, w, h, t), r1) =>
      match encMap t with
      | none => Except.error (GoError.unsupportedEncoding t)
      | some e =>
        match readRects encMap n r1 with
        | Except.error err => Except.error err
        | Except.ok (rs, r2) =>
          Except.ok ({ x := x, y := y, width := w, height := h, enc := e } :: rs, r2)

/-- The body of `FramebufferUpdate.Read` after the registry has been
built: read the 1-byte pad, the 16-bit rectangle count, then the
rectangles. -/
def framebufferUpdateReadWith (encMap : Int → Option Encoding) (r : List Nat) :
    Except GoError (FramebufferUpdate × List Nat) :=
  match readU8 r with
  | none => Except.error GoError.ioError
  | some (_, r1) =>
  match readU16 r1 with
  | none => Except.error GoError.ioError
  | some (numRects, r2) =>
    match readRects encMap numRects r2 with
    | Except.error e => Except.error e
    | Except.ok (rects, r3) => Except.ok (NewFramebufferUpdate rects, r3)

/-- `FramebufferUpdate.Read` from `server.go`: build the registry afresh
from the connection's current encoding list, then decode the message. -/
def framebufferUpdateRead (c : ClientConn) (r : List Nat) :
    Except GoError (FramebufferUpdate × List Nat) :=
  framebufferUpdateReadWith (buildEncMap c.encodings) r

/-- `SetColorMapEntries` from `server.go`. -/
structure SetColorMapEntries : Type where
  firstColor : Nat
  colors : List Color
deriving DecidableEq, Repr

/-- Overwriting update of the connection color map at one 16-bit index. -/
def mapSet (m : Nat → Color) (k : Nat) (v : Color) : Nat → Color :=
  fun i => if i = k then v else m i

/-- The color loop of `SetColorMapEntries.Read`: read `R`, `G`, `B` as
big-endian `uint16` values, then write the color into the connection
color map at `firstColor + i` in unsigned 16-bit arithmetic — `base`
carries `firstColor + i` for the current iteration, so the key is
`base % 2^16`. Returns the decoded colors with the remaining stream, and
(also on the error path, since the map mutations already performed
persist on the connection) the final color map. -/
def readColors (base : Nat) :
    Nat → (Nat → Color) → List Nat →
      Except GoError (List Color × List Nat) × (Nat → Color)
  | 0, cmap, r => (Except.ok ([], r), cmap)
  | n + 1, cmap, r =>
    match readU16 r with
    | none => (Except.error GoError.ioError, cmap)
    | some (red, r1) =>
    match readU16 r1 with
    | none => (Except.error GoError.ioError, cmap)
    | some (green, r2) =>
    match readU16 r2 with
    | none => (Except.error GoError.ioError, cmap)
    | some (blue, r3) =>
      let color : Color := { r := red, g := green, b := blue }
      match readColors (base + 1) n (mapSet cmap (base % 65536) color) r3 with
      | (Except.error e, m) => (Except.error e, m)
      | (Except.ok (cs, rr), m) => (Except.ok (color :: cs, rr), m)

/-- `SetColorMapEntries.Read` from `server.go`: read the 1-byte pad, the
16-bit first color index, the 16-bit color count, then the colors,
mutating the connection color map as each color is decoded. -/
def setColorMapEntriesRead (c : ClientConn) (r : List Nat) :
    Except GoError (SetColorMapEntries × List Nat) × ClientConn :=
  match readU8 r with
  | none => (Except.error GoError.ioError, c)
  | some (_, r1) =>
  match readU16 r1 with
  | none => (Except.error GoError.ioError, c)
  | some (first, r2) =>
  match readU16 r2 with
  | none => (Except.error GoError.ioError, c)
  | some (numColors, r3) =>
    match readColors first numColors c.colorMap r3 with
    | (Except.error e, m) => (Except.error e, { c with colorMap := m })
    | (Except.ok (cs, rr), m) =>
      (Except.ok ({ firstColor := first, colors := cs }, rr),
        { c with colorMap := m })

/-- `ServerCutText.Read` from `server.go`: read the padding — the source
reads a single byte (`var padding [1]byte`), not the three bytes RFC 6143
§7.6.4 prescribes — then a big-endian 32-bit text length and that many raw
text bytes. -/
def serverCutTextRead (r : List Nat) : Except GoError (List Nat × List Nat) :=
  match readU8 r with
  | none => Except.error GoError.ioError
  | some (_, r1) =>
  match readU32 r1 with
  | none => Except.error GoError.ioError
  | some (textLength, r2) =>
  match readBytes textLength r2 with
  | none => Except.error GoError.ioError
  | some (textBytes, r3) => Except.ok (textBytes, r3)

/-- Big-endian serialization of a 16-bit value, for stating wire-level
theorems. -/
def be16 (v : Nat) : List Nat :=
  [v / 256 % 256, v % 256]

/-- Big-endian serialization of a 32-bit value. -/
def be32 (v : Nat) : List Nat :=
  [v / 16777216 % 256, v / 65536 % 256, v / 256 % 256, v % 256]

/-- Wire form of a signed 32-bit value (two's complement). -/
def wireInt32 (t : Int) : List Nat :=
  be32 (t % 4294967296).toNat

/-- A rectangle header as the server puts it on the wire: four 16-bit
fields and a signed 32-bit encoding id. -/
structure RectWire : Type where
  x : Nat
  y : Nat
  w : Nat
  h : Nat
  t : Int
deriving DecidableEq, Repr

/-- Field bounds making a `RectWire` a genuine wire rectangle. -/
def RectWire.bounded (rw : RectWire) : Prop :=
  rw.x < 65536 ∧ rw.y < 65536 ∧ rw.w < 65536 ∧ rw.h < 65536 ∧
    -2147483648 ≤ rw.t ∧ rw.t < 2147483648

instance (rw : RectWire) : Decidable rw.bounded := by
  unfold RectWire.bounded
  infer_instance

/-- Serialize one rectangle header. -/
def wireRect (rw : RectWire) : List Nat :=
  be16 rw.x ++ be16 rw.y ++ be16 rw.w ++ be16 rw.h ++ wireInt32 rw.t

/-- Serialize a list of rectangle headers in order. -/
def wireRects : List RectWire → List Nat
  | [] => []
  | rw :: rws => wireRect rw ++ wireRects rws

/-- Serialize one color (three big-endian 16-bit fields). -/
def wireColor (col : Color) : List Nat :=
  be16 col.r ++ be16 col.g ++ be16 col.b

/-- Serialize a list of colors in order. -/
def wireColors : List Color → List Nat
  | [] => []
  | col :: cols => wireColor col ++ wireColors cols

theorem makeKey_length (password : List Nat) : (makeKey password).length = 8 := by
  simp [makeKey]
  omega

theorem encodeSwapByte_eq_reverse : encodeSwapByte = reverse := rfl

set_option maxRecDepth 8000 in
/-- C9: for every byte value, `reverse` applied twice is the identity. -/
theorem reverse_involutive : ∀ b : Fin 256, reverse (reverse b.val) = b.val := by
  decide

theorem derivedKey_length (password : List Nat) : (derivedKey password).length = 8 := by
  simp [derivedKey, makeKey_length]

theorem desNewCipher_derivedKey (password : List Nat) :
    desNewCipher (derivedKey password) = Except.ok (derivedKey password) := by
  simp [desNewCipher, derivedKey_length]

theorem encodeSwapByte_zero : encodeSwapByte 0 = 0 := by decide

theorem getD_map_encodeSwapByte (l : List Nat) (i : Nat) :
    (l.map encodeSwapByte).getD i 0 = encodeSwapByte (l.getD i 0) := by
  induction l generalizing i with
  | nil => cases i <;> simp [List.getD, encodeSwapByte_zero]
  | cons p tl ih => cases i with
    | zero => rfl
    | succ j => simpa [List.getD] using ih j

theorem getD_pad (n : Nat) (pw : List Nat) (i : Nat) (h : i < n) :
    (pw.take n ++ List.replicate (n - pw.length) 0).getD i 0 = pw.getD i 0 := by
  induction n generalizing pw i with
  | zero => omega
  | succ n ih =>
    cases pw with
    | nil =>
      simp only [List.take_nil, List.length_nil, Nat.sub_zero, List.nil_append,
        List.replicate_succ]
      cases i with
      | zero => rfl
      | succ j =>
        simp [List.getD]
    | cons p tl =>
      simp only [List.take_succ_cons, List.length_cons, Nat.succ_sub_succ,
        List.cons_append]
      cases i with
      | zero => rfl
      | succ j =>
        have := ih tl j (by omega)
        simpa [List.getD] using this

theorem makeKey_getD (pw : List Nat) (i : Nat) (h : i < 8) :
    (makeKey pw).getD i 0 = pw.getD i 0 :=
  getD_pad 8 pw i h

set_option maxRecDepth 20000 in
/-- C7: the derived key is exactly 8 bytes; byte `i` of the key is the
bit-reversal of password byte `i` when `i < len(password)` and of `0`
otherwise (`List.getD` returns the default `0` past the end, which is
exactly the zero-padding; bytes of the password beyond index 7 never enter
the key, as the third conjunct states); and the per-byte transform is a
full bit reversal: bit `j` of the output is bit `7-j` of the input, for
every byte value. The derivation is a pure Lean function, hence
deterministic. -/
theorem derivedKey_spec :
    ∀ password : List Nat,
      (derivedKey password).length = 8 ∧
      (∀ i : Fin 8, (derivedKey password).getD i.val 0
        = encodeSwapByte (password.getD i.val 0)) ∧
      derivedKey password = derivedKey (password.take 8) ∧
      (∀ b : Fin 256, ∀ j : Fin 8,
        (encodeSwapByte b.val).testBit j.val = b.val.testBit (7 - j.val)) := by
  intro pw
  refine ⟨derivedKey_length pw, ?_, ?_, ?_⟩
  · intro i
    rw [derivedKey, getD_map_encodeSwapByte, makeKey_getD pw i.val i.isLt]
  · have : makeKey pw = makeKey (pw.take 8) := by
      simp only [makeKey, List.take_take, Nat.min_self, List.length_take]
      congr 2
      omega
    rw [derivedKey, derivedKey, this]
  · decide

/-- C3: with an empty password, `ClientAuthVNC.Handshake` (`security.go`)
returns the `NewVNCError` failure and the connection is returned exactly as
it was given — nothing read, nothing written — because the password check
precedes all I/O. -/
theorem handshake_empty_password :
    ∀ (E : List Nat → List Nat → List Nat) (s : Conn),
      Handshake E [] s = (Except.error (GoError.vncError
        "securityHandshake: handshake failed; no password provided for VNCAuth."), s) := by
  intro E s
  simp [Handshake]

/-- C1 counterexample: the step of `security.go`'s `Handshake` that consumes
the result of the `auth.encode(&challenge)` call returns success even when
that result carries a cipher-initialization error (`des.KeySizeError`): the
source discards the error instead of surfacing it, so the claim that any
error produced inside `encode` becomes the return value of `Handshake` is
false at this concrete encode result. -/
theorem handshake_swallows_encode_error :
    (handshakeAfterEncode (Except.error (GoError.keySize 7), List.replicate 16 0)
        { input := [], output := [] }).1
      ≠ Except.error (GoError.keySize 7) := by
  simp [handshakeAfterEncode]

/-- C1 amended: `Handshake` discards the error returned by `encode` (second
conjunct: the continuation succeeds whatever error the encode result
carries), but `encode` in fact never fails — the derived key is always
exactly 8 bytes, so `des.NewCipher` always succeeds (first conjunct) — and
hence no error is ever actually swallowed and `Handshake` never returns a
cipher-initialization error. -/
theorem encode_never_fails :
    ∀ (E : List Nat → List Nat → List Nat) (password c : List Nat),
      (encode E password c).1 = Except.ok () ∧
      (∀ (e : GoError) (buf : List Nat) (s : Conn),
        (handshakeAfterEncode (Except.error e, buf) s).1 = Except.ok ()) := by
  intro E password c
  constructor
  · simp [encode, desNewCipher_derivedKey]
  · intro e buf s
    simp [handshakeAfterEncode]

/-- C8: on a 16-byte buffer, with a block function producing 8-byte blocks
(as DES's `Encrypt` does), the challenge encryption keeps the length at 16
and maps bytes 0–7 to the cipher of bytes 0–7 and bytes 8–15 to the cipher
of bytes 8–15, both under the same single key and each half independent of
the other; the final conjunct ties this to `encode`, whose output buffer is
exactly this two-block encryption under the derived key. -/
theorem encryptTwoBlocks_spec :
    ∀ (E : List Nat → List Nat → List Nat) (key c : List Nat),
      c.length = 16 → (∀ b : List Nat, (E key b).length = 8) →
      (encryptTwoBlocks E key c).length = 16 ∧
      (encryptTwoBlocks E key c).take 8 = E key (c.take 8) ∧
      (encryptTwoBlocks E key c).drop 8 = E key (c.drop 8) ∧
      (∀ password : List Nat,
        (encode E password c).2 = encryptTwoBlocks E (derivedKey password) c) := by
  intro E key c hc hE
  have hdrop : (c.drop 8).take 8 = c.drop 8 := by
    apply List.take_of_length_le
    simp [hc]
  have hnil : c.drop 16 = [] := by
    apply List.drop_eq_nil_of_le
    omega
  have henc : encryptTwoBlocks E key c = E key (c.take 8) ++ E key (c.drop 8) := by
    simp [encryptTwoBlocks, hdrop, hnil]
  refine ⟨?_, ?_, ?_, ?_⟩
  · rw [henc]
    simp [hE]
  · rw [henc]
    exact List.take_left' (hE _)
  · rw [henc]
    exact List.drop_left' (hE _)
  · intro password
    simp [encode, desNewCipher_derivedKey]

/-- C8 witness: the theorem instantiated at a constant block function, an
8-byte key and the concrete 16-byte buffer 0..15. -/
theorem encryptTwoBlocks_spec_witness :
    (encryptTwoBlocks (fun _ _ => List.replicate 8 0) (List.replicate 8 0)
        [0, 1, 2, 3, 4, 5, 6, 7, 8, 9, 10, 11, 12, 13, 14, 15]).length = 16 ∧
      (encryptTwoBlocks (fun _ _ => List.replicate 8 0) (List.replicate 8 0)
          [0, 1, 2, 3, 4, 5, 6, 7, 8, 9, 10, 11, 12, 13, 14, 15]).take 8
        = (fun (_ _ : List Nat) => List.replicate 8 0) (List.replicate 8 0)
            ([0, 1, 2, 3, 4, 5, 6, 7, 8, 9, 10, 11, 12, 13, 14, 15].take 8) ∧
      (encryptTwoBlocks (fun _ _ => List.replicate 8 0) (List.replicate 8 0)
          [0, 1, 2, 3, 4, 5, 6, 7, 8, 9, 10, 11, 12, 13, 14, 15]).drop 8
        = (fun (_ _ : List Nat) => List.replicate 8 0) (List.replicate 8 0)
            ([0, 1, 2, 3, 4, 5, 6, 7, 8, 9, 10, 11, 12, 13, 14, 15].drop 8) ∧
      (∀ password : List Nat,
        (encode (fun _ _ => List.replicate 8 0) password
            [0, 1, 2, 3, 4, 5, 6, 7, 8, 9, 10, 11, 12, 13, 14, 15]).2
          = encryptTwoBlocks (fun _ _ => List.replicate 8 0) (derivedKey password)
              [0, 1, 2, 3, 4, 5, 6, 7, 8, 9, 10, 11, 12, 13, 14, 15]) :=
  encryptTwoBlocks_spec (fun _ _ => List.replicate 8 0) (List.replicate 8 0)
    [0, 1, 2, 3, 4, 5, 6, 7, 8, 9, 10, 11, 12, 13, 14, 15]
    (by decide) (fun b => by simp)

/-- C10: for every block function, non-empty password and connection, the
error-checked `Handshake` of `security.go` and the legacy `Handshake` of
`client_auth_vnc.go` return the same result and leave the connection in
the same state (in particular they write back identical encrypted
challenges); and for the empty password the two observably differ — the
checked one rejects with the missing-password error while the legacy one
processes the handshake. -/
theorem handshake_implementations_agree :
    ∀ (E : List Nat → List Nat → List Nat) (password : List Nat) (s : Conn),
      (password ≠ [] → Handshake E password s = HandshakeLegacy E password s) ∧
      (Handshake E [] s).1 ≠ (HandshakeLegacy E [] s).1 := by
  intro E password s
  constructor
  · intro h
    by_cases h16 : 16 ≤ s.input.length
    · simp [Handshake, HandshakeLegacy, readChallenge, readBytes, h16, h,
        handshakeAfterEncode, encode, desNewCipher, derivedKey,
        encodeSwapByte_eq_reverse, makeKey_length, writeConn]
    · simp [Handshake, HandshakeLegacy, readChallenge, readBytes, h16, h]
  · by_cases h16 : 16 ≤ s.input.length
    · simp [Handshake, HandshakeLegacy, readChallenge, readBytes, h16,
        desNewCipher, makeKey_length]
    · simp [Handshake, HandshakeLegacy, readChallenge, readBytes, h16]

/-- C10 witness: the two implementations agree at the password "a" on a
connection offering a concrete 16-byte challenge. -/
theorem handshake_implementations_agree_witness :
    Handshake (fun _ b => b) [97] { input := List.replicate 16 5, output := [] }
      = HandshakeLegacy (fun _ b => b) [97]
          { input := List.replicate 16 5, output := [] } :=
  (handshake_implementations_agree (fun _ b => b) [97]
    { input := List.replicate 16 5, output := [] }).1 (by decide)

theorem readU16_be16 (v : Nat) (rest : List Nat) (h : v < 65536) :
    readU16 (be16 v ++ rest) = some (v, rest) := by
  simp only [be16, readU16, List.cons_append, List.nil_append]
  congr 2
  omega

theorem readU32_be32 (v : Nat) (rest : List Nat) (h : v < 4294967296) :
    readU32 (be32 v ++ rest) = some (v, rest) := by
  simp only [be32, readU32, List.cons_append, List.nil_append]
  congr 2
  omega

theorem wireInt32_toNat_lt (t : Int) : (t % 4294967296).toNat < 4294967296 := by
  omega

theorem readU32_wireInt32 (t : Int) (rest : List Nat) :
    readU32 (wireInt32 t ++ rest) = some ((t % 4294967296).toNat, rest) :=
  readU32_be32 _ rest (wireInt32_toNat_lt t)

theorem toInt32_wire (t : Int) (hlo : -2147483648 ≤ t) (hhi : t < 2147483648) :
    toInt32 (t % 4294967296).toNat = t := by
  unfold toInt32
  split <;> omega

theorem receiveRectangleMessage_wireRect (rw : RectWire) (rest : List Nat)
    (h : rw.bounded) :
    receiveRectangleMessage (wireRect rw ++ rest)
      = some ((rw.x, rw.y, rw.w, rw.h, rw.t), rest) := by
  obtain ⟨hx, hy, hw, hh, hlo, hhi⟩ := h
  simp only [wireRect, List.append_assoc, receiveRectangleMessage,
    readU16_be16 _ _ hx, readU16_be16 _ _ hy, readU16_be16 _ _ hw,
    readU16_be16 _ _ hh, readU32_wireInt32, toInt32_wire _ hlo hhi]

/-- C2: what the code does on the stream prescribed by the claim —
3 padding bytes, the big-endian length 5, then "hello" (104 101 108 108
111). `ServerCutText.Read` consumes only one padding byte, reads the
length field off bytes 1–4 of the stream (here 0), and returns an empty
text with the last 7 bytes unconsumed, instead of the claimed text
"hello" with all 12 bytes consumed. -/
theorem serverCutTextRead_eval :
    serverCutTextRead [0, 0, 0, 0, 0, 0, 5, 104, 101, 108, 108, 111]
      = Except.ok ([], [0, 5, 104, 101, 108, 108, 111]) := by
  rfl

theorem readRects_wire_abort (good : List RectWire) :
    ∀ (m : Int → Option Encoding) (n : Nat) (bad : RectWire) (rest : List Nat),
      good.length < n →
      (∀ g ∈ good, g.bounded ∧ (m g.t).isSome) →
      bad.bounded → m bad.t = none →
      readRects m n (wireRects good ++ (wireRect bad ++ rest))
        = Except.error (GoError.unsupportedEncoding bad.t) := by
  induction good with
  | nil =>
    intro m n bad rest hn _ hbad hmt
    cases n with
    | zero => omega
    | succ k =>
      simp [wireRects, readRects, receiveRectangleMessage_wireRect bad rest hbad, hmt]
  | cons g gs ih =>
    intro m n bad rest hn hgood hbad hmt
    cases n with
    | zero => omega
    | succ k =>
      obtain ⟨hgb, hgs⟩ := hgood g (List.mem_cons_self g gs)
      obtain ⟨e, he⟩ := Option.isSome_iff_exists.mp hgs
      have hrec := ih m k bad rest (by simpa using Nat.lt_of_succ_lt_succ hn)
        (fun g' hg' => hgood g' (List.mem_cons_of_mem g hg')) hbad hmt
      simp [wireRects, List.append_assoc, readRects,
        receiveRectangleMessage_wireRect g _ hgb, he, hrec]

/-- C4: decoding a FramebufferUpdate whose rectangle at position
`good.length` carries an encoding id absent from the registry built for
this decode fails with the unsupported-encoding error naming that id —
whatever well-formed rectangles with registered ids precede it, however
many rectangles were announced beyond it (they are not decoded: the bytes
after the offending header are arbitrary), and with no partial message:
the result is the bare error, which in `Except` excludes a message. -/
theorem framebufferUpdate_unsupported_encoding :
    ∀ (c : ClientConn) (p n : Nat) (good : List RectWire) (bad : RectWire)
      (rest : List Nat),
      n < 65536 → good.length < n →
      (∀ g ∈ good, g.bounded ∧ (buildEncMap c.encodings g.t).isSome) →
      bad.bounded → buildEncMap c.encodings bad.t = none →
      framebufferUpdateRead c
          (p :: (be16 n ++ (wireRects good ++ (wireRect bad ++ rest))))
        = Except.error (GoError.unsupportedEncoding bad.t) := by
  intro c p n good bad rest hn hlen hgood hbad hmt
  have habort := readRects_wire_abort good (buildEncMap c.encodings) n bad rest
    hlen hgood hbad hmt
  simp [framebufferUpdateRead, framebufferUpdateReadWith, readU8,
    readU16_be16 n _ hn, habort]

/-- C4 witness: a connection with no configured encodings and a stream
announcing one rectangle whose encoding id 5 is not in the registry. -/
theorem framebufferUpdate_unsupported_encoding_witness :
    framebufferUpdateRead
        { encodings := [], colorMap := fun _ => { r := 0, g := 0, b := 0 } }
        (0 :: (be16 1 ++ (wireRects [] ++
          (wireRect { x := 0, y := 0, w := 0, h := 0, t := 5 } ++ []))))
      = Except.error (GoError.unsupportedEncoding 5) :=
  framebufferUpdate_unsupported_encoding
    { encodings := [], colorMap := fun _ => { r := 0, g := 0, b := 0 } }
    0 1 [] { x := 0, y := 0, w := 0, h := 0, t := 5 } []
    (by decide) (by decide) (by simp) (by decide) (by rfl)

theorem foldl_mapInsert_lookup (encs : List Encoding) :
    ∀ (m0 : Int → Option Encoding) (t : Int),
      encs.foldl (fun m e => mapInsert m e.type e) m0 t
        = (encs.reverse.find? (fun e => e.type == t)).or (m0 t) := by
  induction encs with
  | nil => intro m0 t; simp
  | cons e tl ih =>
    intro m0 t
    have hsingle : (([e].find? (fun e => e.type == t)).or (m0 t))
        = mapInsert m0 e.type e t := by
      unfold mapInsert
      by_cases h : e.type = t
      · subst h
        simp [List.find?]
      · have hb : (e.type == t) = false := by simp [h]
        have hn : ¬t = e.type := fun hc => h hc.symm
        simp [List.find?, hb, hn]
    calc (e :: tl).foldl (fun m e => mapInsert m e.type e) m0 t
        = tl.foldl (fun m e => mapInsert m e.type e) (mapInsert m0 e.type e) t := rfl
      _ = (tl.reverse.find? (fun e => e.type == t)).or (mapInsert m0 e.type e t) :=
          ih (mapInsert m0 e.type e) t
      _ = (tl.reverse.find? (fun e => e.type == t)).or
            ((([e].find? (fun e => e.type == t)).or (m0 t))) := by rw [hsingle]
      _ = (((tl.reverse.find? (fun e => e.type == t)).or
            ([e].find? (fun e => e.type == t))).or (m0 t)) := by
          rw [Option.or_assoc]
      _ = ((e :: tl).reverse.find? (fun e => e.type == t)).or (m0 t) := by
          rw [List.reverse_cons, List.find?_append]

/-- C5: the registry built at the start of a FramebufferUpdate decode
resolves the Raw id to the built-in Raw decoder no matter what the caller
configured (first conjunct — in particular even when the caller supplied
its own decoder for that id); every other id resolves to the last
caller-supplied decoder reporting it, later entries overwriting earlier
ones, and to nothing when no caller entry reports it (second conjunct:
lookup equals `find?` over the reversed caller list); and the decode is
the generic body applied to the registry freshly built from the
connection's current encoding list (third conjunct), so the registry is a
function of the list at each call, not a cache. -/
theorem buildEncMap_spec :
    ∀ (encs : List Encoding) (c : ClientConn) (r : List Nat),
      buildEncMap encs Raw = some (NewRawEncoding []) ∧
      (∀ t : Int, t ≠ Raw →
        buildEncMap encs t = encs.reverse.find? (fun e => e.type == t)) ∧
      framebufferUpdateRead c r
        = framebufferUpdateReadWith (buildEncMap c.encodings) r := by
  intro encs c r
  refine ⟨?_, ?_, rfl⟩
  · simp [buildEncMap, mapInsert]
  · intro t ht
    have : buildEncMap encs t
        = encs.foldl (fun m e => mapInsert m e.type e) (fun _ => none) t := by
      simp [buildEncMap, mapInsert, ht]
    rw [this, foldl_mapInsert_lookup]
    simp

/-- C5 witness: with caller encodings [id 0 decoder 7, id 5 decoder 1,
id 5 decoder 2], the Raw id 0 still resolves to the built-in Raw decoder
(the caller's decoder 7 for id 0 is overridden) and id 5 resolves to the
later duplicate, decoder 2. -/
theorem buildEncMap_spec_witness :
    buildEncMap [Encoding.callerEncoding 0 7, Encoding.callerEncoding 5 1,
        Encoding.callerEncoding 5 2] Raw = some (NewRawEncoding []) ∧
    buildEncMap [Encoding.callerEncoding 0 7, Encoding.callerEncoding 5 1,
        Encoding.callerEncoding 5 2] 5 = some (Encoding.callerEncoding 5 2) := by
  constructor
  · exact (buildEncMap_spec [Encoding.callerEncoding 0 7, Encoding.callerEncoding 5 1,
      Encoding.callerEncoding 5 2]
      { encodings := [], colorMap := fun _ => { r := 0, g := 0, b := 0 } } []).1
  · rw [(buildEncMap_spec [Encoding.callerEncoding 0 7, Encoding.callerEncoding 5 1,
      Encoding.callerEncoding 5 2]
      { encodings := [], colorMap := fun _ => { r := 0, g := 0, b := 0 } } []).2.1 5
      (by decide)]
    rfl

theorem readColors_wire (colors : List Color) :
    ∀ (base : Nat) (cmap : Nat → Color) (rest : List Nat),
      colors.length ≤ 65536 →
      (∀ col ∈ colors, col.r < 65536 ∧ col.g < 65536 ∧ col.b < 65536) →
      (readColors base colors.length cmap (wireColors colors ++ rest)).1
          = Except.ok (colors, rest) ∧
      (∀ j : Fin colors.length,
        (readColors base colors.length cmap (wireColors colors ++ rest)).2
            ((base + j.val) % 65536) = colors.get j) ∧
      (∀ k : Nat, (∀ j : Fin colors.length, k ≠ (base + j.val) % 65536) →
        (readColors base colors.length cmap (wireColors colors ++ rest)).2 k
          = cmap k) := by
  induction colors with
  | nil =>
    intro base cmap rest _ _
    refine ⟨rfl, ?_, fun k _ => rfl⟩
    intro j
    exact absurd j.isLt (by simp)
  | cons col cs ih =>
    intro base cmap rest hlen hbounds
    obtain ⟨hr, hg, hb⟩ := hbounds col (List.mem_cons_self col cs)
    have hlen' : cs.length ≤ 65536 := by
      simp at hlen
      omega
    have hcs : cs.length + 1 ≤ 65536 := by simpa using hlen
    have hbounds' : ∀ col' ∈ cs, col'.r < 65536 ∧ col'.g < 65536 ∧ col'.b < 65536 :=
      fun col' h => hbounds col' (List.mem_cons_of_mem col h)
    have ihspec := ih (base + 1) (mapSet cmap (base % 65536) col) rest hlen' hbounds'
    rcases hA : readColors (base + 1) cs.length (mapSet cmap (base % 65536) col)
      (wireColors cs ++ rest) with ⟨res, m⟩
    rw [hA] at ihspec
    obtain ⟨hres, hwritten, huntouched⟩ := ihspec
    simp only at hres
    have hstep : readColors base (col :: cs).length cmap
        (wireColors (col :: cs) ++ rest) = (Except.ok (col :: cs, rest), m) := by
      simp only [List.length_cons, wireColors, wireColor, List.append_assoc,
        readColors, readU16_be16 _ _ hr, readU16_be16 _ _ hg, readU16_be16 _ _ hb]
      rw [hA, hres]
    rw [hstep]
    refine ⟨rfl, ?_, ?_⟩
    · intro j
      rcases j with ⟨jv, hj⟩
      cases jv with
      | zero =>
        have hkey : ∀ j' : Fin cs.length,
            (base + 0) % 65536 ≠ (base + 1 + j'.val) % 65536 := by
          intro j'
          have := j'.isLt
          omega
        have := huntouched ((base + 0) % 65536) hkey
        simp only at this ⊢
        rw [this]
        simp [mapSet]
      | succ jv' =>
        have hj' : jv' < cs.length := by
          simpa using Nat.lt_of_succ_lt_succ hj
        have harg : base + (jv' + 1) = base + 1 + jv' := by omega
        have := hwritten ⟨jv', hj'⟩
        simp only at this ⊢
        rw [harg, this]
        rfl
    · intro k hk
      have hk' : ∀ j' : Fin cs.length, k ≠ (base + 1 + j'.val) % 65536 := by
        intro j'
        have h2 : k ≠ (base + (j'.val + 1)) % 65536 := by
          simpa using hk ⟨j'.val + 1, by simp only [List.length_cons]; omega⟩
        have harg : base + (j'.val + 1) = base + 1 + j'.val := by omega
        rw [harg] at h2
        exact h2
      have hk0 : k ≠ base % 65536 := by
        have := hk ⟨0, by simp⟩
        simpa using this
      rw [huntouched k hk']
      simp [mapSet, hk0]

/-- C6: decoding a SetColorMapEntries wire message carrying `firstColor`
and a color list writes color `i` into the connection color map at key
`(firstColor + i) mod 2^16` — unsigned 16-bit wrapping arithmetic — for
every index, leaves every other key untouched (the writes happen in index
order with overwrite semantics; with at most 65535 colors the keys are
distinct, so each written key holds exactly its color), and returns the
message exposing the same `firstColor` and the same colors in the same
order, with the stream beyond the message untouched. -/
theorem setColorMapEntries_spec :
    ∀ (c : ClientConn) (p first : Nat) (colors : List Color) (rest : List Nat),
      first < 65536 → colors.length < 65536 →
      (∀ col ∈ colors, col.r < 65536 ∧ col.g < 65536 ∧ col.b < 65536) →
      (setColorMapEntriesRead c
          (p :: (be16 first ++ (be16 colors.length ++ (wireColors colors ++ rest))))).1
        = Except.ok ({ firstColor := first, colors := colors }, rest) ∧
      (∀ j : Fin colors.length,
        (setColorMapEntriesRead c
            (p :: (be16 first ++ (be16 colors.length ++ (wireColors colors ++ rest))))).2.colorMap
            ((first + j.val) % 65536) = colors.get j) ∧
      (∀ k : Nat, (∀ j : Fin colors.length, k ≠ (first + j.val) % 65536) →
        (setColorMapEntriesRead c
            (p :: (be16 first ++ (be16 colors.length ++ (wireColors colors ++ rest))))).2.colorMap k
          = c.colorMap k) := by
  intro c p first colors rest hfirst hlen hbounds
  have hspec := readColors_wire colors first c.colorMap rest (Nat.le_of_lt hlen)
    hbounds
  rcases hA : readColors first colors.length c.colorMap
    (wireColors colors ++ rest) with ⟨res, m⟩
  rw [hA] at hspec
  obtain ⟨hres, hwritten, huntouched⟩ := hspec
  simp only at hres
  have hstep : setColorMapEntriesRead c
      (p :: (be16 first ++ (be16 colors.length ++ (wireColors colors ++ rest))))
      = (Except.ok ({ firstColor := first, colors := colors }, rest),
          { c with colorMap := m }) := by
    simp only [setColorMapEntriesRead, readU8, readU16_be16 _ _ hfirst,
      readU16_be16 _ _ hlen]
    rw [hA, hres]
  rw [hstep]
  exact ⟨rfl, fun j => hwritten j, fun k hk => huntouched k hk⟩

/-- C6 witness: the spec example — firstColor 10 with colors (1,2,3) and
(4,5,6) — on a connection whose map is all zeros: the decode succeeds,
the map holds (1,2,3) at 10 and (4,5,6) at 11, all other keys untouched. -/
theorem setColorMapEntries_spec_witness :
    (setColorMapEntriesRead
        { encodings := [], colorMap := fun _ => { r := 0, g := 0, b := 0 } }
        (0 :: (be16 10 ++ (be16 ([{ r := 1, g := 2, b := 3 },
            { r := 4, g := 5, b := 6 }] : List Color).length ++
          (wireColors [{ r := 1, g := 2, b := 3 }, { r := 4, g := 5, b := 6 }] ++ []))))).1
      = Except.ok
          ({ firstColor := 10,
             colors := [{ r := 1, g := 2, b := 3 }, { r := 4, g := 5, b := 6 }] },
           []) ∧
    (∀ j : Fin ([{ r := 1, g := 2, b := 3 },
          { r := 4, g := 5, b := 6 }] : List Color).length,
      (setColorMapEntriesRead
          { encodings := [], colorMap := fun _ => { r := 0, g := 0, b := 0 } }
          (0 :: (be16 10 ++ (be16 ([{ r := 1, g := 2, b := 3 },
              { r := 4, g := 5, b := 6 }] : List Color).length ++
            (wireColors [{ r := 1, g := 2, b := 3 },
              { r := 4, g := 5, b := 6 }] ++ []))))).2.colorMap
          ((10 + j.val) % 65536)
        = ([{ r := 1, g := 2, b := 3 }, { r := 4, g := 5, b := 6 }] : List Color).get j) ∧
    (∀ k : Nat,
      (∀ j : Fin ([{ r := 1, g := 2, b := 3 },
            { r := 4, g := 5, b := 6 }] : List Color).length,
        k ≠ (10 + j.val) % 65536) →
      (setColorMapEntriesRead
          { encodings := [], colorMap := fun _ => { r := 0, g := 0, b := 0 } }
          (0 :: (be16 10 ++ (be16 ([{ r := 1, g := 2, b := 3 },
              { r := 4, g := 5, b := 6 }] : List Color).length ++
            (wireColors [{ r := 1, g := 2, b := 3 },
              { r := 4, g := 5, b := 6 }] ++ []))))).2.colorMap k
        = ({ r := 0, g := 0, b := 0 } : Color)) :=
  setColorMapEntries_spec
    { encodings := [], colorMap := fun _ => { r := 0, g := 0, b := 0 } }
    0 10 [{ r := 1, g := 2, b := 3 }, { r := 4, g := 5, b := 6 }] []
    (by decide) (by decide) (by decide)
